import Mathlib

/-!
Verification model of the flag-football play-designer core
(`src/play-designer/src/features/play-designer/` plus the `setActiveLOS`
mutation site in `src/play-designer/src/App.tsx`).

Conventions of the embedding:
* JavaScript numbers are modelled by `PD.JSNum`: NaN, the two infinities, or a
  finite value carried exactly as a rational.  IEEE-754 rounding of arithmetic
  is not modelled; all finite arithmetic is exact.
* The interactive canvas manipulates in-memory values that are always finite
  reals, so the canvas model (`PD.PlayElement`, `PD.Play`) uses plain `ℚ`
  coordinates.  The persistence/normalisation layer defends against missing or
  malformed fields (`?? defaults`, `Number.isFinite` guards), so its model
  (`PD.StoredElement`, `PD.StoredPlay`) uses `Option` fields and `JSNum`.
* `Math.hypot` only ever appears in comparisons `hypot dx dy < r` against
  non-negative bounds, which are equivalent to squared-distance comparisons
  `dx*dx + dy*dy < r*r`; the embedding uses the squared form throughout.
* `generateUid` draws from `Math.random()`; the successive strings it returns
  are modelled as an oracle stream passed in explicitly.
-/

namespace PD

/-- Model of a JavaScript number: NaN, an infinity, or a finite value
    (held exactly as a rational). -/
inductive JSNum where
  | nan : JSNum
  | inf : JSNum
  | negInf : JSNum
  | fin : ℚ → JSNum
deriving DecidableEq

/-- `Number.isFinite`. -/
def JSNum.isFinite : JSNum → Bool
  | .fin _ => true
  | _ => false

/-- JavaScript truthiness of a number: `NaN` and `0` are falsy. -/
def JSNum.truthy : JSNum → Bool
  | .nan => false
  | .fin q => decide (q ≠ 0)
  | _ => true

/-- `a || b` on numbers. -/
def JSNum.jsOr (a b : JSNum) : JSNum := if a.truthy then a else b

/-- `Math.round`: for finite arguments JavaScript rounds half-up, i.e.
    `Math.round x = ⌊x + 1/2⌋`; NaN and the infinities pass through. -/
def JSNum.round : JSNum → JSNum
  | .nan => .nan
  | .inf => .inf
  | .negInf => .negInf
  | .fin q => .fin ((⌊q + 1/2⌋ : ℤ) : ℚ)

/-- `Math.max` on two numbers: NaN-propagating, `-∞` is the identity. -/
def JSNum.jsMax : JSNum → JSNum → JSNum
  | .nan, _ => .nan
  | _, .nan => .nan
  | .inf, _ => .inf
  | _, .inf => .inf
  | .negInf, b => b
  | a, .negInf => a
  | .fin a, .fin b => .fin (max a b)

/-- `Math.min` on two numbers: NaN-propagating, `+∞` is the identity. -/
def JSNum.jsMin : JSNum → JSNum → JSNum
  | .nan, _ => .nan
  | _, .nan => .nan
  | .negInf, _ => .negInf
  | _, .negInf => .negInf
  | .inf, b => b
  | a, .inf => a
  | .fin a, .fin b => .fin (min a b)

/-- IEEE addition on the extended values. -/
def JSNum.add : JSNum → JSNum → JSNum
  | .nan, _ => .nan
  | _, .nan => .nan
  | .inf, .negInf => .nan
  | .negInf, .inf => .nan
  | .inf, _ => .inf
  | _, .inf => .inf
  | .negInf, _ => .negInf
  | _, .negInf => .negInf
  | .fin a, .fin b => .fin (a + b)

/-- IEEE multiplication on the extended values (`0 * ∞ = NaN`). -/
def JSNum.mul : JSNum → JSNum → JSNum
  | .nan, _ => .nan
  | _, .nan => .nan
  | .inf, .inf => .inf
  | .inf, .negInf => .negInf
  | .negInf, .inf => .negInf
  | .negInf, .negInf => .inf
  | .inf, .fin q => if 0 < q then .inf else if q < 0 then .negInf else .nan
  | .fin q, .inf => if 0 < q then .inf else if q < 0 then .negInf else .nan
  | .negInf, .fin q => if 0 < q then .negInf else if q < 0 then .inf else .nan
  | .fin q, .negInf => if 0 < q then .negInf else if q < 0 then .inf else .nan
  | .fin a, .fin b => .fin (a * b)

/-! ### Field constants (src/features/play-designer/utils.ts, FIELD_CONSTANTS) -/

def FIELD_MARGIN_VERTICAL : ℚ := 40
def FIELD_MARGIN_HORIZONTAL : ℚ := 40
def DEFAULT_PLAY_SIZE_H : ℚ := 800
def DEFAULT_DIVISIONS : ℚ := 20
def DEFAULT_FIELD_WIDTH : ℚ := 30
def DEFAULT_LINE_OF_SCRIMMAGE : ℚ := 5
def SNAP_RADIUS : ℚ := 18

/-- `BASE_UNIT_PX = (800 - 40*2) / 20 = 36`. -/
def BASE_UNIT_PX : ℚ :=
  (DEFAULT_PLAY_SIZE_H - FIELD_MARGIN_VERTICAL * 2) / DEFAULT_DIVISIONS

/-- The `{w, h}` pixel-size record at the document level. -/
structure JSDimensions where
  w : JSNum
  h : JSNum
deriving DecidableEq

/-- `computeFieldSize` from src/features/play-designer/utils.ts lines 43-49:
    `widthUnits = Math.max(1, Math.round(widthYards) || 1)` and likewise for
    the length, then margins plus units times `BASE_UNIT_PX`. -/
def computeFieldSize (widthYards lengthYards : JSNum) : JSDimensions :=
  let widthUnits := JSNum.jsMax (.fin 1) (JSNum.jsOr widthYards.round (.fin 1))
  let lengthUnits := JSNum.jsMax (.fin 1) (JSNum.jsOr lengthYards.round (.fin 1))
  { w := JSNum.add (.fin (FIELD_MARGIN_HORIZONTAL * 2)) (JSNum.mul widthUnits (.fin BASE_UNIT_PX))
    h := JSNum.add (.fin (FIELD_MARGIN_VERTICAL * 2)) (JSNum.mul lengthUnits (.fin BASE_UNIT_PX)) }

/-- `clamp` from utils.ts lines 35-38: non-finite values fall back to the lower
    bound, otherwise `Math.max(min, Math.min(max, value))`. -/
def clamp (value lo hi : JSNum) : JSNum :=
  if value.isFinite = false then lo else JSNum.jsMax lo (JSNum.jsMin hi value)

/-! ### Document-level element model and normalisation -/

inductive StrokeStyle where
  | solid : StrokeStyle
  | dashed : StrokeStyle
deriving DecidableEq

/-- First entry of `DEFAULT_PALETTE`. -/
def DEFAULT_PALETTE_0 : String := "#111827"

/-- A persisted/imported element, possibly with missing fields (the runtime
    shape `normaliseElement` defends against): fields that the source backfills
    with `??` or `Number.isFinite` guards are `Option`s, and numeric fields use
    `JSNum`.  The `unknown` constructor stands for an unrecognized `type` tag,
    which the source's `switch` passes through unchanged. -/
inductive StoredElement where
  | player (id : String) (x y : JSNum) (color : Option String) (label : Option String)
      (r : Option JSNum)
  | ball (id : String) (x y : JSNum) (color : Option String)
  | arrow (id : String) (x1 y1 x2 y2 : JSNum) (color : Option String)
      (style : Option StrokeStyle) (thickness : Option JSNum)
  | line (id : String) (x1 y1 x2 y2 : JSNum) (color : Option String)
      (style : Option StrokeStyle) (thickness : Option JSNum)
  | perpLine (id : String) (x1 y1 x2 y2 : JSNum) (color : Option String)
      (style : Option StrokeStyle) (thickness : Option JSNum) (tick : Option JSNum)
  | rect (id : String) (x y : JSNum) (w h : Option JSNum) (color : Option String)
  | zone (id : String) (x y : JSNum) (w h : Option JSNum) (color : Option String)
  | unknown (tag : String) (payload : String)
deriving DecidableEq

/-- `Number.isFinite(v) ? v : d` where `v` may also be absent (`undefined`,
    for which `Number.isFinite` is false as well). -/
def finiteOr (v : Option JSNum) (d : ℚ) : JSNum :=
  match v with
  | some n => if n.isFinite then n else .fin d
  | none => .fin d

/-- `normaliseElement` from utils.ts lines 137-178. -/
def normaliseElement : StoredElement → StoredElement
  | .player id x y color label r =>
      .player id x y (some (color.getD DEFAULT_PALETTE_0)) (some (label.getD ""))
        (some (finiteOr r 25))
  | .ball id x y color => .ball id x y (some (color.getD "#a16207"))
  | .arrow id x1 y1 x2 y2 color style thickness =>
      .arrow id x1 y1 x2 y2 (some (color.getD DEFAULT_PALETTE_0))
        (some (style.getD .solid)) (some (finiteOr thickness 3))
  | .line id x1 y1 x2 y2 color style thickness =>
      .line id x1 y1 x2 y2 (some (color.getD DEFAULT_PALETTE_0))
        (some (style.getD .solid)) (some (finiteOr thickness 3))
  | .perpLine id x1 y1 x2 y2 color style thickness tick =>
      .perpLine id x1 y1 x2 y2 (some (color.getD DEFAULT_PALETTE_0))
        (some (style.getD .solid)) (some (finiteOr thickness 3)) (some (finiteOr tick 12))
  | .rect id x y w h color =>
      .rect id x y (some (finiteOr w 0)) (some (finiteOr h 0))
        (some (color.getD DEFAULT_PALETTE_0))
  | .zone id x y w h color =>
      .zone id x y (some (finiteOr w 0)) (some (finiteOr h 0))
        (some (color.getD DEFAULT_PALETTE_0))
  | .unknown tag payload => .unknown tag payload

/-- A persisted/imported play as `normalisePlay` receives it. -/
structure StoredPlay where
  id : String
  name : String
  size : JSDimensions
  lineOfScrimmage : Option JSNum
  fieldWidthYards : JSNum
  fieldLengthYards : JSNum
  elements : List StoredElement
deriving DecidableEq

/-- `normalisePlay` from utils.ts lines 116-132. -/
def normalisePlay (raw : StoredPlay) : StoredPlay :=
  let safeWidth := JSNum.jsMax (.fin 1) (JSNum.jsOr raw.fieldWidthYards (.fin DEFAULT_FIELD_WIDTH))
  let safeLength :=
    JSNum.jsMax (.fin 1) (JSNum.jsOr raw.fieldLengthYards.round (.fin DEFAULT_DIVISIONS))
  let safeLOS :=
    match raw.lineOfScrimmage with
    | none => JSNum.fin DEFAULT_LINE_OF_SCRIMMAGE
    | some v => clamp v.round (.fin 0) safeLength
  { raw with
    fieldWidthYards := safeWidth
    fieldLengthYards := safeLength
    lineOfScrimmage := some safeLOS
    size := computeFieldSize safeWidth safeLength
    elements := raw.elements.map normaliseElement }

/-- `setActiveLOS` from src/play-designer/src/App.tsx lines 955-960:
    `maxLOS = Math.max(1, Math.round(active.fieldLengthYards ?? 20))` and
    `nextLOS = val === null ? null : Math.min(Math.max(0, Math.round(val)), maxLOS)`.
    The `?? 20` fallback is dropped because the model's field is always present. -/
def setActiveLOS (active : StoredPlay) (val : Option JSNum) : StoredPlay :=
  let maxLOS := JSNum.jsMax (.fin 1) active.fieldLengthYards.round
  let nextLOS :=
    match val with
    | none => none
    | some v => some (JSNum.jsMin (JSNum.jsMax (.fin 0) v.round) maxLOS)
  { active with lineOfScrimmage := nextLOS }

/-! ### Canvas-level model (src/features/play-designer/components/PlayCanvas.tsx)

The canvas operates on in-memory elements whose numeric fields are ordinary
finite numbers, modelled as `ℚ`. -/

structure Point where
  x : ℚ
  y : ℚ
deriving DecidableEq

/-- The tagged union of drawable elements (types.ts). -/
inductive PlayElement where
  | player (id : String) (x y : ℚ) (color : String) (label : String) (r : ℚ)
  | ball (id : String) (x y : ℚ) (color : String)
  | arrow (id : String) (x1 y1 x2 y2 : ℚ) (color : String) (style : StrokeStyle) (thickness : ℚ)
  | line (id : String) (x1 y1 x2 y2 : ℚ) (color : String) (style : StrokeStyle) (thickness : ℚ)
  | perpLine (id : String) (x1 y1 x2 y2 : ℚ) (color : String) (style : StrokeStyle)
      (thickness : ℚ) (tick : ℚ)
  | rect (id : String) (x y w h : ℚ) (color : String)
  | zone (id : String) (x y w h : ℚ) (color : String)
deriving DecidableEq

/-- The `id` property shared by every element variant. -/
def PlayElement.elementId : PlayElement → String
  | .player i _ _ _ _ _ => i
  | .ball i _ _ _ => i
  | .arrow i _ _ _ _ _ _ _ => i
  | .line i _ _ _ _ _ _ _ => i
  | .perpLine i _ _ _ _ _ _ _ _ => i
  | .rect i _ _ _ _ _ => i
  | .zone i _ _ _ _ _ => i

structure Dimensions where
  w : ℚ
  h : ℚ
deriving DecidableEq

/-- A play as the canvas sees it (types.ts `Play`). -/
structure Play where
  id : String
  name : String
  size : Dimensions
  lineOfScrimmage : Option ℚ
  fieldWidthYards : ℚ
  fieldLengthYards : ℚ
  elements : List PlayElement
deriving DecidableEq

/-- Squared Euclidean distance between `(ax, ay)` and `(cx, cy)`.  All uses of
    `Math.hypot` in the source are comparisons against non-negative bounds, so
    they are stated equivalently on squares. -/
def distSq (ax ay cx cy : ℚ) : ℚ := (ax - cx) * (ax - cx) + (ay - cy) * (ay - cy)

/-- The snap candidates one element pushes, in source order: the centre of a
    Player when players are locked, then endpoint 1 and endpoint 2 of a
    line-like element (PlayCanvas.tsx lines 187-198). -/
def elementSnapCandidates (playersLocked : Bool) : PlayElement → List Point
  | .player _ x y _ _ _ => if playersLocked then [⟨x, y⟩] else []
  | .arrow _ x1 y1 x2 y2 _ _ _ => [⟨x1, y1⟩, ⟨x2, y2⟩]
  | .line _ x1 y1 x2 y2 _ _ _ => [⟨x1, y1⟩, ⟨x2, y2⟩]
  | .perpLine _ x1 y1 x2 y2 _ _ _ _ => [⟨x1, y1⟩, ⟨x2, y2⟩]
  | _ => []

/-- All snap candidates, in element iteration order. -/
def snapCandidates (playersLocked : Bool) (els : List PlayElement) : List Point :=
  els.flatMap (elementSnapCandidates playersLocked)

/-- The `exclude` guard of the loop body:
    `exclude && Math.hypot(candidate.x - exclude.x, candidate.y - exclude.y) < 0.5`. -/
def excludedPt (exclude : Option Point) (c : Point) : Bool :=
  match exclude with
  | none => false
  | some e => decide (distSq c.x c.y e.x e.y < 1/4)

/-- The `distance < minDistance` update of the loop body, on squares. -/
def snapUpdate (x y : ℚ) (st : Option Point × ℚ) (c : Point) : Option Point × ℚ :=
  if distSq c.x c.y x y < st.2 then (some c, distSq c.x c.y x y) else st

/-- One loop iteration of `findSnapPoint`: skip excluded candidates, otherwise
    update the running minimum. -/
def snapStep (x y : ℚ) (exclude : Option Point) (st : Option Point × ℚ) (c : Point) :
    Option Point × ℚ :=
  if excludedPt exclude c then st else snapUpdate x y st c

/-- `findSnapPoint` from PlayCanvas.tsx lines 182-214: linear scan over the
    candidates with the running minimum initialised to `SNAP_RADIUS`
    (squared here). -/
def findSnapPoint (els : List PlayElement) (playersLocked : Bool) (x y : ℚ)
    (exclude : Option Point) : Option Point :=
  ((snapCandidates playersLocked els).foldl (snapStep x y exclude)
    (none, SNAP_RADIUS * SNAP_RADIUS)).1

/-- `addElement` from PlayCanvas.tsx lines 171-180: the freshly created element
    `{ id: generateUid(), ...element }` is appended to the play's collection.
    The string `generateUid()` returned for this call is passed in explicitly. -/
def addElement (uid : String) (p : Play) (e : String → PlayElement) : Play :=
  { p with elements := p.elements ++ [e uid] }

/-- The transient draft built by press-drag (PlayCanvas.tsx `DraftState`):
    an arrow/line/perpendicular-line or a rect/zone, with no id yet. -/
inductive DraftState where
  | arrow (x1 y1 x2 y2 : ℚ) (color : String) (style : StrokeStyle) (thickness : ℚ)
  | line (x1 y1 x2 y2 : ℚ) (color : String) (style : StrokeStyle) (thickness : ℚ)
  | perpLine (x1 y1 x2 y2 : ℚ) (color : String) (style : StrokeStyle)
      (thickness : ℚ) (tick : ℚ)
  | rect (x y w h : ℚ) (color : String)
  | zone (x y w h : ℚ) (color : String)
deriving DecidableEq

/-- The final endpoint of a committed line-like draft: the pointer-up re-snap
    excluding the draft's start point, falling back to the drafted endpoint. -/
def resnapEnd (els : List PlayElement) (playersLocked : Bool) (x1 y1 x2 y2 : ℚ) : ℚ × ℚ :=
  match findSnapPoint els playersLocked x2 y2 (some ⟨x1, y1⟩) with
  | some sp => (sp.x, sp.y)
  | none => (x2, y2)

/-- The draft branch of `handleSvgPointerUp` (PlayCanvas.tsx lines 400-433):
    line-like drafts shorter than 8 px and rect/zone drafts with `|w| < 6` or
    `|h| < 6` are discarded; otherwise line-like drafts get a final endpoint
    re-snap and the draft is committed through `addElement`.  `uid` is the
    value `generateUid()` returns at this commit. -/
def commitDraft (uid : String) (playersLocked : Bool) (p : Play) (d : DraftState) : Play :=
  match d with
  | .arrow x1 y1 x2 y2 c s t =>
      if distSq x2 y2 x1 y1 < 8 * 8 then p
      else
        let e := resnapEnd p.elements playersLocked x1 y1 x2 y2
        addElement uid p (fun i => .arrow i x1 y1 e.1 e.2 c s t)
  | .line x1 y1 x2 y2 c s t =>
      if distSq x2 y2 x1 y1 < 8 * 8 then p
      else
        let e := resnapEnd p.elements playersLocked x1 y1 x2 y2
        addElement uid p (fun i => .line i x1 y1 e.1 e.2 c s t)
  | .perpLine x1 y1 x2 y2 c s t k =>
      if distSq x2 y2 x1 y1 < 8 * 8 then p
      else
        let e := resnapEnd p.elements playersLocked x1 y1 x2 y2
        addElement uid p (fun i => .perpLine i x1 y1 e.1 e.2 c s t k)
  | .rect x y w h c =>
      if |w| < 6 ∨ |h| < 6 then p else addElement uid p (fun i => .rect i x y w h c)
  | .zone x y w h c =>
      if |w| < 6 ∨ |h| < 6 then p else addElement uid p (fun i => .zone i x y w h c)

/-! ### Element creation with the uid oracle (claim C8)

`generateUid` is `Math.random().toString(36).slice(2, 9)`; `uids n` is the
string the `n`-th call returns.  Nothing in the source checks the draws for
distinctness. -/

/-- An element body as handed to `addElement` (an element without its `id`). -/
inductive ElementBody where
  | player (x y : ℚ) (color : String) (label : String) (r : ℚ)
  | ball (x y : ℚ) (color : String)
  | arrow (x1 y1 x2 y2 : ℚ) (color : String) (style : StrokeStyle) (thickness : ℚ)
  | line (x1 y1 x2 y2 : ℚ) (color : String) (style : StrokeStyle) (thickness : ℚ)
  | perpLine (x1 y1 x2 y2 : ℚ) (color : String) (style : StrokeStyle)
      (thickness : ℚ) (tick : ℚ)
  | rect (x y w h : ℚ) (color : String)
  | zone (x y w h : ℚ) (color : String)
deriving DecidableEq

/-- `{ id: uid, ...body }`. -/
def ElementBody.withId (uid : String) : ElementBody → PlayElement
  | .player x y c l r => .player uid x y c l r
  | .ball x y c => .ball uid x y c
  | .arrow x1 y1 x2 y2 c s t => .arrow uid x1 y1 x2 y2 c s t
  | .line x1 y1 x2 y2 c s t => .line uid x1 y1 x2 y2 c s t
  | .perpLine x1 y1 x2 y2 c s t k => .perpLine uid x1 y1 x2 y2 c s t k
  | .rect x y w h c => .rect uid x y w h c
  | .zone x y w h c => .zone uid x y w h c

/-- A sequence of `addElement` commits: the `k`-th call of the run consumes the
    uid draw `uids k`. -/
def addAll (uids : ℕ → String) : ℕ → Play → List ElementBody → Play
  | _, p, [] => p
  | k, p, b :: rest => addAll uids (k + 1) (addElement (uids k) p b.withId) rest

/-! ### History manager (src/features/play-designer/hooks/useHistory.ts)

The hook's mutable refs become an explicit state record, generic in the
snapshot type exactly as the hook is generic over `DesignerSnapshot`. -/

structure HistoryState (α : Type) where
  capacity : ℕ
  undoStack : List α
  redoStack : List α
  previous : α
  skipNext : Bool
deriving DecidableEq

/-- The state `useHistory(initialSnapshot, options)` starts from:
    `capacity = Math.max(1, options.capacity ?? 50)`, empty stacks, baseline
    `initialSnapshot`, skip-next armed. -/
def initHistory {α : Type} (initial : α) (capacityOpt : Option ℕ) : HistoryState α :=
  { capacity := max 1 (capacityOpt.getD 50)
    undoStack := []
    redoStack := []
    previous := initial
    skipNext := true }

/-- `arr.slice(-n)` for `n ≥ 1`: the last `n` entries. -/
def sliceLast {α : Type} (n : ℕ) (l : List α) : List α := l.drop (l.length - n)

/-- `reset` (useHistory.ts lines 28-33). -/
def HistoryState.reset {α : Type} (st : HistoryState α) (s : α) : HistoryState α :=
  { st with undoStack := [], redoStack := [], previous := s, skipNext := true }

/-- `register` (useHistory.ts lines 35-48). -/
def HistoryState.register {α : Type} (st : HistoryState α) (s : α) : HistoryState α :=
  if st.skipNext then { st with skipNext := false, previous := s }
  else
    let pushed := st.undoStack ++ [st.previous]
    let trimmed := if st.capacity < pushed.length then sliceLast st.capacity pushed else pushed
    { st with undoStack := trimmed, redoStack := [], previous := s }

/-- `undo` (useHistory.ts lines 50-58), returning the popped snapshot (or
    `none` on an empty stack) together with the next state. -/
def HistoryState.undo {α : Type} (st : HistoryState α) : Option α × HistoryState α :=
  match st.undoStack.getLast? with
  | none => (none, st)
  | some prev =>
      (some prev,
        { st with
          undoStack := st.undoStack.dropLast
          redoStack := st.redoStack ++ [st.previous]
          skipNext := true
          previous := prev })

/-- `redo` (useHistory.ts lines 60-68). -/
def HistoryState.redo {α : Type} (st : HistoryState α) : Option α × HistoryState α :=
  match st.redoStack.getLast? with
  | none => (none, st)
  | some next =>
      (some next,
        { st with
          redoStack := st.redoStack.dropLast
          undoStack := st.undoStack ++ [st.previous]
          skipNext := true
          previous := next })

/-- A sequence of `register` calls. -/
def registerAll {α : Type} (st : HistoryState α) (l : List α) : HistoryState α :=
  l.foldl HistoryState.register st

/-- `n` successive `undo()` calls, collecting the returned values. -/
def undoTimes {α : Type} : ℕ → HistoryState α → List (Option α) × HistoryState α
  | 0, st => ([], st)
  | n + 1, st =>
      let r := st.undo
      let rest := undoTimes n r.2
      (r.1 :: rest.1, rest.2)

/-- `n` successive `redo()` calls, collecting the returned values. -/
def redoTimes {α : Type} : ℕ → HistoryState α → List (Option α) × HistoryState α
  | 0, st => ([], st)
  | n + 1, st =>
      let r := st.redo
      let rest := redoTimes n r.2
      (r.1 :: rest.1, rest.2)

/-- The whole round trip of claim C1: reset to `s0`, register every snapshot of
    `l`, undo `l.length` times, then redo `l.length` times (outputs of the redo
    phase are returned alongside the final state). -/
def roundTrip {α : Type} (st0 : HistoryState α) (s0 : α) (l : List α) :
    List (Option α) × HistoryState α :=
  redoTimes l.length (undoTimes l.length (registerAll (st0.reset s0) l)).2

/-! ### Specification-side helpers for the history theorems -/

/-- `lastD d l` is the last element of `l`, or `d` when `l` is empty. -/
def lastD {α : Type} (d : α) : List α → α
  | [] => d
  | b :: m => lastD b m

/-- The baselines pushed while registering `m` from baseline `p` (each
    `register` pushes the previous baseline): `p, m₀, m₁, …` without the final
    element. -/
def pushedSeq {α : Type} (p : α) : List α → List α
  | [] => []
  | b :: m => p :: pushedSeq b m

/-- The baselines pushed over a whole post-reset run: the first register after
    a reset is swallowed, so the reset snapshot itself is never pushed. -/
def allPushes {α : Type} : List α → List α
  | [] => []
  | a :: m => pushedSeq a m

/-- The entries appended to the opposite stack when a stack `u` with baseline
    `p` is fully drained: the baseline first, then the popped entries except
    the deepest one. -/
def unwind {α : Type} (u : List α) (p : α) : List α :=
  if u.isEmpty then [] else p :: u.reverse.dropLast

/-- The last non-`none` entry of a list of optional results. -/
def lastSome {α : Type} : List (Option α) → Option α
  | [] => none
  | x :: rest =>
      match lastSome rest with
      | some b => some b
      | none => x

/-- The rejection condition of claim C4, stated from the claim's words: a
    line-like draft whose endpoint distance is under 8 px (compared via
    squares) or a rect/zone draft with `|w| < 6` or `|h| < 6` is discarded. -/
def draftRejected : DraftState → Prop
  | .arrow x1 y1 x2 y2 _ _ _ => distSq x2 y2 x1 y1 < 8 * 8
  | .line x1 y1 x2 y2 _ _ _ => distSq x2 y2 x1 y1 < 8 * 8
  | .perpLine x1 y1 x2 y2 _ _ _ _ => distSq x2 y2 x1 y1 < 8 * 8
  | .rect _ _ w h _ => |w| < 6 ∨ |h| < 6
  | .zone _ _ w h _ => |w| < 6 ∨ |h| < 6

/-! ### Concrete demonstration data -/

/-- One arrow whose first endpoint is the anchor `(100, 100)`. -/
def demoSnapElements : List PlayElement :=
  [.arrow "a1" 100 100 300 300 "#111827" .solid 3]

/-- An empty play for the draft-commit demonstrations. -/
def demoPlay : Play :=
  ⟨"p1", "Demo", ⟨600, 800⟩, some 5, 30, 20, []⟩

/-- A play containing one arrow with an endpoint at `(50, 50)`, used to show
    the final endpoint re-snap on commit. -/
def demoPlayWithArrow : Play :=
  ⟨"p1", "Demo", ⟨600, 800⟩, some 5, 30, 20,
    [.arrow "a1" 50 50 200 200 "#111827" .solid 3]⟩

/-- A stored play with field length 20 yards and a given line of scrimmage. -/
def rawPlayLOS (v : JSNum) : StoredPlay :=
  ⟨"p1", "Demo", ⟨.fin 600, .fin 800⟩, some v, .fin 30, .fin 20, []⟩

/-!
## Theorems

The remainder of the file settles the claims; each claim's theorem carries a
doc comment naming the claim.
-/

/-- `Number.isFinite (finiteOr v d)` always holds: the backfill value is
    finite and a value is only kept when finite. -/
theorem finiteOr_isFinite (v : Option JSNum) (d : ℚ) : (finiteOr v d).isFinite = true := by
  cases v with
  | none => rfl
  | some n =>
      cases n <;> simp [finiteOr, JSNum.isFinite]

/-- Re-normalising an already backfilled numeric field changes nothing. -/
theorem finiteOr_idem (v : Option JSNum) (d : ℚ) :
    finiteOr (some (finiteOr v d)) d = finiteOr v d := by
  cases v with
  | none => rfl
  | some n => cases n <;> simp [finiteOr, JSNum.isFinite]

/-- C6: element normalisation is total by construction (`normaliseElement` is
    a total function, mirroring the source's never-throwing `switch` with a
    pass-through `default`), and idempotent: normalising a normalised element,
    including one with an unrecognised type tag, returns an equal value. -/
theorem normaliseElement_idempotent (e : StoredElement) :
    normaliseElement (normaliseElement e) = normaliseElement e := by
  cases e <;> simp [normaliseElement, finiteOr_idem]

/-- `a || b` keeps a truthy finite `a`. -/
theorem jsOr_fin_ne {r : ℚ} (b : JSNum) (h : r ≠ 0) : JSNum.jsOr (.fin r) b = .fin r := by
  simp [JSNum.jsOr, JSNum.truthy, h]

/-- `0 || b = b`. -/
theorem jsOr_fin_zero (b : JSNum) : JSNum.jsOr (.fin 0) b = b := by
  simp [JSNum.jsOr, JSNum.truthy]

/-- `Math.max` on two finite values. -/
theorem jsMax_fin (a b : ℚ) : JSNum.jsMax (.fin a) (.fin b) = .fin (max a b) := rfl

/-- For any input other than `+∞`, the unit coercion
    `Math.max(1, Math.round(v) || 1)` yields an integer that is at least 1. -/
theorem units_integral (v : JSNum) (h : v ≠ .inf) :
    ∃ u : ℤ, 1 ≤ u ∧ JSNum.jsMax (.fin 1) (JSNum.jsOr v.round (.fin 1)) = .fin (u : ℚ) := by
  cases v with
  | nan =>
      refine ⟨1, le_refl 1, ?_⟩
      show JSNum.jsMax (.fin 1) (JSNum.jsOr .nan (.fin 1)) = _
      rw [show JSNum.jsOr .nan (.fin 1) = .fin 1 from rfl, jsMax_fin]
      norm_num
  | inf => exact absurd rfl h
  | negInf =>
      refine ⟨1, le_refl 1, ?_⟩
      show JSNum.jsMax (.fin 1) (JSNum.jsOr .negInf (.fin 1)) = _
      rw [show JSNum.jsOr .negInf (.fin 1) = .negInf from rfl,
        show JSNum.jsMax (.fin 1) .negInf = .fin 1 from rfl]
      norm_num
  | fin q =>
      by_cases h0 : (⌊q + 1/2⌋ : ℤ) = 0
      · refine ⟨1, le_refl 1, ?_⟩
        have h1 : (JSNum.fin q).round = .fin 0 := by
          show JSNum.fin ((⌊q + 1/2⌋ : ℤ) : ℚ) = .fin 0
          rw [h0]
          norm_num
        rw [h1, jsOr_fin_zero, jsMax_fin]
        norm_num
      · refine ⟨max 1 ⌊q + 1/2⌋, le_max_left _ _, ?_⟩
        have hne : ((⌊q + 1/2⌋ : ℤ) : ℚ) ≠ 0 := by exact_mod_cast h0
        have h1 : (JSNum.fin q).round = .fin ((⌊q + 1/2⌋ : ℤ) : ℚ) := rfl
        rw [h1, jsOr_fin_ne _ hne, jsMax_fin]
        norm_cast

/-- C7 (amended): `computeFieldSize` is a pure total function; for every pair
    of inputs other than `+∞` (so all finite values, `NaN` and `-∞`), each
    input is coerced to an integer number of units that is at least 1, and the
    output is margins plus units times `BASE_UNIT_PX`.  `NaN`, zero and
    negative inputs coerce to 1 unit. -/
theorem computeFieldSize_coercion :
    (∀ wY lY : JSNum, wY ≠ .inf → lY ≠ .inf →
      ∃ wu lu : ℤ, 1 ≤ wu ∧ 1 ≤ lu ∧
        computeFieldSize wY lY =
          ⟨.fin (FIELD_MARGIN_HORIZONTAL * 2 + (wu : ℚ) * BASE_UNIT_PX),
           .fin (FIELD_MARGIN_VERTICAL * 2 + (lu : ℚ) * BASE_UNIT_PX)⟩) ∧
    (∀ a b a' b' : JSNum, a = a' → b = b' → computeFieldSize a b = computeFieldSize a' b') ∧
    computeFieldSize .nan (.fin 20) = ⟨.fin 116, .fin 800⟩ ∧
    computeFieldSize (.fin (-5)) (.fin 20) = ⟨.fin 116, .fin 800⟩ ∧
    computeFieldSize (.fin 0) (.fin 20) = ⟨.fin 116, .fin 800⟩ := by
  refine ⟨?_, ?_, ?_, ?_, ?_⟩
  · intro wY lY hw hl
    obtain ⟨wu, hwu, hweq⟩ := units_integral wY hw
    obtain ⟨lu, hlu, hleq⟩ := units_integral lY hl
    refine ⟨wu, lu, hwu, hlu, ?_⟩
    simp [computeFieldSize, hweq, hleq, JSNum.mul, JSNum.add]
  · intro a b a' b' ha hb
    rw [ha, hb]
  · norm_num [computeFieldSize, JSNum.round, JSNum.jsOr, JSNum.truthy, JSNum.jsMax,
      JSNum.add, JSNum.mul, FIELD_MARGIN_HORIZONTAL, FIELD_MARGIN_VERTICAL,
      BASE_UNIT_PX, DEFAULT_PLAY_SIZE_H, DEFAULT_DIVISIONS]
  · norm_num [computeFieldSize, JSNum.round, JSNum.jsOr, JSNum.truthy, JSNum.jsMax,
      JSNum.add, JSNum.mul, FIELD_MARGIN_HORIZONTAL, FIELD_MARGIN_VERTICAL,
      BASE_UNIT_PX, DEFAULT_PLAY_SIZE_H, DEFAULT_DIVISIONS]
  · norm_num [computeFieldSize, JSNum.round, JSNum.jsOr, JSNum.truthy, JSNum.jsMax,
      JSNum.add, JSNum.mul, FIELD_MARGIN_HORIZONTAL, FIELD_MARGIN_VERTICAL,
      BASE_UNIT_PX, DEFAULT_PLAY_SIZE_H, DEFAULT_DIVISIONS]

/-- C7 counterexample: with input `+∞` the width is *not* coerced to an
    integer of at least 1 unit — the infinity propagates into the output, so
    the claimed clamped-integer form fails at the concrete input
    `(+∞, 20)`. -/
theorem computeFieldSize_inf_counterexample :
    computeFieldSize .inf (.fin 20) = ⟨.inf, .fin 800⟩ ∧
    ¬ ∃ wu : ℤ, 1 ≤ wu ∧
        (computeFieldSize .inf (.fin 20)).w =
          .fin (FIELD_MARGIN_HORIZONTAL * 2 + (wu : ℚ) * BASE_UNIT_PX) := by
  have hval : computeFieldSize .inf (.fin 20) = ⟨.inf, .fin 800⟩ := by
    norm_num [computeFieldSize, JSNum.round, JSNum.jsOr, JSNum.truthy, JSNum.jsMax,
      JSNum.add, JSNum.mul, FIELD_MARGIN_HORIZONTAL, FIELD_MARGIN_VERTICAL,
      BASE_UNIT_PX, DEFAULT_PLAY_SIZE_H, DEFAULT_DIVISIONS]
  refine ⟨hval, ?_⟩
  rintro ⟨wu, -, h⟩
  rw [hval] at h
  exact JSNum.noConfusion h

/-- C7 witness: the amended coercion theorem applied at the concrete default
    field dimensions `(30, 20)`. -/
theorem computeFieldSize_coercion_witness :
    ∃ wu lu : ℤ, 1 ≤ wu ∧ 1 ≤ lu ∧
      computeFieldSize (.fin 30) (.fin 20) =
        ⟨.fin (FIELD_MARGIN_HORIZONTAL * 2 + (wu : ℚ) * BASE_UNIT_PX),
         .fin (FIELD_MARGIN_VERTICAL * 2 + (lu : ℚ) * BASE_UNIT_PX)⟩ :=
  computeFieldSize_coercion.1 (.fin 30) (.fin 20) (by decide) (by decide)

/-- `Math.min` on two finite values. -/
theorem jsMin_fin (a b : ℚ) : JSNum.jsMin (.fin a) (.fin b) = .fin (min a b) := rfl

/-- Rounding an integral value is the identity. -/
theorem floor_nat_half (n : ℕ) : (⌊(n : ℚ) + 1/2⌋ : ℤ) = n := by
  rw [Int.floor_eq_iff]
  push_cast
  constructor <;> norm_num

/-- C9: a numeric line-of-scrimmage value `v` is stored as `Math.round v`
    clamped to `[0, fieldLengthYards]`, both by `normalisePlay` (against the
    play's normalised field length) and by the `setActiveLOS` mutation site
    (for an integral field length of at least 1 yard). -/
theorem lineOfScrimmage_clamped :
    (∀ (raw : StoredPlay) (q L : ℚ), raw.lineOfScrimmage = some (.fin q) →
      (normalisePlay raw).fieldLengthYards = .fin L →
      (normalisePlay raw).lineOfScrimmage =
        some (.fin (max 0 (min L ((⌊q + 1/2⌋ : ℤ) : ℚ))))) ∧
    (∀ (active : StoredPlay) (q : ℚ) (n : ℕ), 1 ≤ n →
      active.fieldLengthYards = .fin (n : ℚ) →
      (setActiveLOS active (some (.fin q))).lineOfScrimmage =
        some (.fin (min (max 0 ((⌊q + 1/2⌋ : ℤ) : ℚ)) (n : ℚ)))) := by
  constructor
  · intro raw q L hlos hlen
    simp only [normalisePlay, hlos] at hlen ⊢
    rw [hlen]
    show some (clamp (JSNum.fin q).round (.fin 0) (.fin L)) = _
    rw [show (JSNum.fin q).round = .fin ((⌊q + 1/2⌋ : ℤ) : ℚ) from rfl]
    rw [show clamp (.fin ((⌊q + 1/2⌋ : ℤ) : ℚ)) (.fin 0) (.fin L) =
      JSNum.jsMax (.fin 0) (JSNum.jsMin (.fin L) (.fin ((⌊q + 1/2⌋ : ℤ) : ℚ))) from rfl]
    rw [jsMin_fin, jsMax_fin]
  · intro active q n hn hlen
    simp only [setActiveLOS, hlen]
    rw [show (JSNum.fin ((n : ℚ))).round = .fin ((⌊(n : ℚ) + 1/2⌋ : ℤ) : ℚ) from rfl,
      floor_nat_half, show (JSNum.fin q).round = .fin ((⌊q + 1/2⌋ : ℤ) : ℚ) from rfl,
      jsMax_fin, jsMax_fin, jsMin_fin]
    have h1 : max (1 : ℚ) (((n : ℤ) : ℚ)) = (n : ℚ) := by
      push_cast
      apply max_eq_right
      exact_mod_cast hn
    rw [h1]

/-- C9 witness: on a play with `fieldLengthYards = 20`, setting the line of
    scrimmage to 999 stores 20 and setting it to -5 stores 0, both through
    `normalisePlay` and through `setActiveLOS`. -/
theorem lineOfScrimmage_clamped_witness :
    (normalisePlay (rawPlayLOS (.fin 999))).lineOfScrimmage = some (.fin 20) ∧
    (normalisePlay (rawPlayLOS (.fin (-5)))).lineOfScrimmage = some (.fin 0) ∧
    (setActiveLOS (rawPlayLOS (.fin 5)) (some (.fin 999))).lineOfScrimmage = some (.fin 20) ∧
    (setActiveLOS (rawPlayLOS (.fin 5)) (some (.fin (-5)))).lineOfScrimmage = some (.fin 0) := by
  have hlen : (normalisePlay (rawPlayLOS (.fin 999))).fieldLengthYards = .fin 20 := by
    norm_num [normalisePlay, rawPlayLOS, JSNum.round, JSNum.jsOr, JSNum.truthy, JSNum.jsMax,
      DEFAULT_DIVISIONS]
  have hlen2 : (normalisePlay (rawPlayLOS (.fin (-5)))).fieldLengthYards = .fin 20 := by
    norm_num [normalisePlay, rawPlayLOS, JSNum.round, JSNum.jsOr, JSNum.truthy, JSNum.jsMax,
      DEFAULT_DIVISIONS]
  have hfl : (rawPlayLOS (.fin 5)).fieldLengthYards = .fin ((20 : ℕ) : ℚ) := by
    norm_num [rawPlayLOS]
  refine ⟨?_, ?_, ?_, ?_⟩
  · rw [lineOfScrimmage_clamped.1 (rawPlayLOS (.fin 999)) 999 20 rfl hlen]
    norm_num
  · rw [lineOfScrimmage_clamped.1 (rawPlayLOS (.fin (-5))) (-5) 20 rfl hlen2]
    norm_num
  · rw [lineOfScrimmage_clamped.2 (rawPlayLOS (.fin 5)) 999 20 (by norm_num) hfl]
    norm_num
  · rw [lineOfScrimmage_clamped.2 (rawPlayLOS (.fin 5)) (-5) 20 (by norm_num) hfl]
    norm_num

/-! ### History lemmas -/

/-- The stepwise trim of `register` always equals keeping the last `capacity`
    entries. -/
theorem trim_eq {α : Type} (c : ℕ) (l : List α) :
    (if c < l.length then sliceLast c l else l) = sliceLast c l := by
  split_ifs with h
  · rfl
  · unfold sliceLast
    rw [Nat.sub_eq_zero_of_le (le_of_not_lt h), List.drop_zero]

/-- `sliceLast` keeps a short list whole. -/
theorem sliceLast_of_le {α : Type} (c : ℕ) (l : List α) (h : l.length ≤ c) :
    sliceLast c l = l := by
  unfold sliceLast
  rw [Nat.sub_eq_zero_of_le h, List.drop_zero]

/-- `sliceLast` keeps at most `c` entries. -/
theorem sliceLast_length {α : Type} (c : ℕ) (l : List α) :
    (sliceLast c l).length ≤ c := by
  unfold sliceLast
  rw [List.length_drop]
  omega

/-- Trimming, appending more and trimming again is the same as trimming once
    at the end. -/
theorem sliceLast_absorb {α : Type} (c : ℕ) (xs ys : List α) :
    sliceLast c (sliceLast c xs ++ ys) = sliceLast c (xs ++ ys) := by
  unfold sliceLast
  rw [List.drop_append_eq_append_drop, List.drop_append_eq_append_drop, List.drop_drop]
  simp only [List.length_drop, List.length_append]
  congr 1
  · congr 1
    omega
  · congr 1
    omega

/-- `register` on a state with the skip-next flag armed only clears the flag
    and moves the baseline. -/
theorem register_skip {α : Type} (st : HistoryState α) (s : α) (h : st.skipNext = true) :
    st.register s = { st with skipNext := false, previous := s } := by
  simp [HistoryState.register, h]

/-- `register` with the flag down pushes the previous baseline, trims to
    capacity, clears redo and moves the baseline. -/
theorem register_noskip {α : Type} (st : HistoryState α) (s : α) (h : st.skipNext = false) :
    st.register s =
      { st with
        undoStack := sliceLast st.capacity (st.undoStack ++ [st.previous])
        redoStack := []
        previous := s } := by
  simp only [HistoryState.register, h, Bool.false_eq_true, if_false]
  rw [trim_eq]

/-- `register` with the flag down and headroom simply appends the baseline. -/
theorem register_noskip_small {α : Type} (st : HistoryState α) (s : α)
    (h : st.skipNext = false) (hlen : st.undoStack.length + 1 ≤ st.capacity) :
    st.register s =
      { st with undoStack := st.undoStack ++ [st.previous], redoStack := [], previous := s } := by
  rw [register_noskip st s h, sliceLast_of_le]
  simp only [List.length_append, List.length_cons, List.length_nil]
  omega

/-- Registering a list with the flag down and enough headroom appends the
    successive baselines and ends at the last snapshot. -/
theorem registerAll_noskip_small {α : Type} :
    ∀ (m : List α) (st : HistoryState α), st.skipNext = false →
      st.undoStack.length + m.length ≤ st.capacity →
      registerAll st m =
        { st with
          undoStack := st.undoStack ++ pushedSeq st.previous m
          redoStack := if m.isEmpty then st.redoStack else []
          previous := lastD st.previous m
          skipNext := false } := by
  intro m
  induction m with
  | nil =>
      intro st h _
      simp only [registerAll, List.foldl_nil, pushedSeq, List.append_nil, List.isEmpty_nil,
        if_true, lastD]
      cases st
      simp_all
  | cons b rest ih =>
      intro st h hlen
      have hstep : st.register b =
          { st with undoStack := st.undoStack ++ [st.previous], redoStack := [], previous := b } := by
        apply register_noskip_small st b h
        simp only [List.length_cons] at hlen
        omega
      show registerAll (st.register b) rest = _
      rw [hstep, ih]
      · simp only [List.append_assoc, List.singleton_append, pushedSeq, lastD,
          List.isEmpty_cons]
        cases rest <;> simp
      · exact h
      · simp only [List.length_append, List.length_cons, List.length_nil]
        simp only [List.length_cons] at hlen
        omega

/-- A fresh post-reset run: the first register is swallowed, the rest push. -/
theorem registerAll_fresh {α : Type} (st : HistoryState α) (a : α) (m : List α)
    (hskip : st.skipNext = true) (hu : st.undoStack = []) (hr : st.redoStack = [])
    (hlen : m.length ≤ st.capacity) :
    registerAll st (a :: m) =
      { st with
        undoStack := pushedSeq a m
        redoStack := []
        previous := lastD a m
        skipNext := false } := by
  show registerAll (st.register a) m = _
  rw [register_skip st a hskip, registerAll_noskip_small]
  · simp only [hu, hr, List.nil_append]
    cases m <;> simp [pushedSeq, lastD]
  · rfl
  · simp only [hu, List.length_nil]
    omega

/-- Undo calls on an empty undo stack are no-ops returning `null`. -/
theorem undoTimes_empty {α : Type} (st : HistoryState α) (h : st.undoStack = []) :
    ∀ n, undoTimes n st = (List.replicate n none, st) := by
  intro n
  induction n with
  | zero => rfl
  | succ k ih =>
      have hu : st.undo = (none, st) := by
        unfold HistoryState.undo
        rw [h]
        rfl
      show (st.undo.1 :: (undoTimes k st.undo.2).1, (undoTimes k st.undo.2).2) = _
      rw [hu]
      simp only [ih, List.replicate_succ]

/-- Redo calls on an empty redo stack are no-ops returning `null`. -/
theorem redoTimes_empty {α : Type} (st : HistoryState α) (h : st.redoStack = []) :
    ∀ n, redoTimes n st = (List.replicate n none, st) := by
  intro n
  induction n with
  | zero => rfl
  | succ k ih =>
      have hu : st.redo = (none, st) := by
        unfold HistoryState.redo
        rw [h]
        rfl
      show (st.redo.1 :: (redoTimes k st.redo.2).1, (redoTimes k st.redo.2).2) = _
      rw [hu]
      simp only [ih, List.replicate_succ]

/-- Peeling the last stack entry off an `unwind`. -/
theorem unwind_append {α : Type} (u : List α) (a p : α) :
    unwind (u ++ [a]) p = p :: unwind u a := by
  cases u with
  | nil => simp [unwind]
  | cons c u' =>
      have h1 : (c :: (u' ++ [a])).reverse = a :: (c :: u').reverse := by
        rw [show c :: (u' ++ [a]) = (c :: u') ++ [a] from rfl, List.reverse_append]
        rfl
      have h2 : (c :: u').reverse ≠ [] := by simp
      simp only [unwind, List.cons_append, List.isEmpty_cons, Bool.false_eq_true, if_false]
      rw [h1, List.dropLast_cons_of_ne_nil h2]

/-- `headD` through an appended singleton. -/
theorem headD_append_singleton {α : Type} (u : List α) (a p : α) :
    (u ++ [a]).headD p = u.headD a := by
  cases u <;> rfl

/-- Fully draining the undo stack: each call pops the top, pushes the running
    baseline onto redo, and moves the baseline; calls beyond the depth return
    `null` and change nothing. -/
theorem undoTimes_drain {α : Type} (u : List α) :
    ∀ (st : HistoryState α) (n : ℕ), st.undoStack = u → u.length ≤ n →
      undoTimes n st =
        (u.reverse.map some ++ List.replicate (n - u.length) none,
         { st with
           undoStack := []
           redoStack := st.redoStack ++ unwind u st.previous
           previous := u.headD st.previous
           skipNext := if u.isEmpty then st.skipNext else true }) := by
  induction u using List.reverseRecOn with
  | nil =>
      intro st n hu _
      rw [undoTimes_empty st hu n]
      simp only [List.reverse_nil, List.map_nil, List.nil_append, List.length_nil,
        Nat.sub_zero, unwind, List.isEmpty_nil, if_true, List.append_nil, List.headD_nil]
      cases st
      simp_all
  | append_singleton u' a ih =>
      intro st n hu hn
      have hne : n ≠ 0 := by
        simp only [List.length_append, List.length_cons, List.length_nil] at hn
        omega
      obtain ⟨n', rfl⟩ : ∃ n', n = n' + 1 := ⟨n - 1, by omega⟩
      have hstep : st.undo =
          (some a,
           { st with
             undoStack := u'
             redoStack := st.redoStack ++ [st.previous]
             skipNext := true
             previous := a }) := by
        unfold HistoryState.undo
        rw [hu, List.getLast?_concat, List.dropLast_concat]
      show (st.undo.1 :: (undoTimes n' st.undo.2).1, (undoTimes n' st.undo.2).2) = _
      rw [hstep]
      rw [ih _ n' rfl (by
        simp only [List.length_append, List.length_cons, List.length_nil] at hn
        omega)]
      simp only [List.append_assoc, List.singleton_append]
      refine Prod.ext ?_ ?_
      · rw [show (u' ++ [a]).reverse = a :: u'.reverse by rw [List.reverse_append]; rfl]
        simp only [List.map_cons, List.singleton_append, List.length_append,
          List.length_cons, List.length_nil]
        rw [show n' + 1 - (u'.length + (0 + 1)) = n' - u'.length by omega]
        rfl
      · rw [unwind_append, headD_append_singleton]
        have hne2 : (u' ++ [a]).isEmpty = false := by
          cases u' <;> rfl
        rw [hne2]
        simp only [Bool.false_eq_true, if_false]
        cases hc : u'.isEmpty <;> simp

/-- Fully draining the redo stack, symmetrically. -/
theorem redoTimes_drain {α : Type} (r : List α) :
    ∀ (st : HistoryState α) (n : ℕ), st.redoStack = r → r.length ≤ n →
      redoTimes n st =
        (r.reverse.map some ++ List.replicate (n - r.length) none,
         { st with
           redoStack := []
           undoStack := st.undoStack ++ unwind r st.previous
           previous := r.headD st.previous
           skipNext := if r.isEmpty then st.skipNext else true }) := by
  induction r using List.reverseRecOn with
  | nil =>
      intro st n hr _
      rw [redoTimes_empty st hr n]
      simp only [List.reverse_nil, List.map_nil, List.nil_append, List.length_nil,
        Nat.sub_zero, unwind, List.isEmpty_nil, if_true, List.append_nil, List.headD_nil]
      cases st
      simp_all
  | append_singleton r' a ih =>
      intro st n hr hn
      have hne : n ≠ 0 := by
        simp only [List.length_append, List.length_cons, List.length_nil] at hn
        omega
      obtain ⟨n', rfl⟩ : ∃ n', n = n' + 1 := ⟨n - 1, by omega⟩
      have hstep : st.redo =
          (some a,
           { st with
             redoStack := r'
             undoStack := st.undoStack ++ [st.previous]
             skipNext := true
             previous := a }) := by
        unfold HistoryState.redo
        rw [hr, List.getLast?_concat, List.dropLast_concat]
      show (st.redo.1 :: (redoTimes n' st.redo.2).1, (redoTimes n' st.redo.2).2) = _
      rw [hstep]
      rw [ih _ n' rfl (by
        simp only [List.length_append, List.length_cons, List.length_nil] at hn
        omega)]
      simp only [List.append_assoc, List.singleton_append]
      refine Prod.ext ?_ ?_
      · rw [show (r' ++ [a]).reverse = a :: r'.reverse by rw [List.reverse_append]; rfl]
        simp only [List.map_cons, List.singleton_append, List.length_append,
          List.length_cons, List.length_nil]
        rw [show n' + 1 - (r'.length + (0 + 1)) = n' - r'.length by omega]
        rfl
      · rw [unwind_append, headD_append_singleton]
        have hne2 : (r' ++ [a]).isEmpty = false := by
          cases r' <;> rfl
        rw [hne2]
        simp only [Bool.false_eq_true, if_false]
        cases hc : r'.isEmpty <;> simp

/-- `pushedSeq` has one entry per registered snapshot. -/
theorem pushedSeq_length {α : Type} (m : List α) : ∀ p : α, (pushedSeq p m).length = m.length := by
  induction m with
  | nil => intro p; rfl
  | cons b rest ih => intro p; simp [pushedSeq, ih]

/-- A run of `null` results has no last non-null entry. -/
theorem lastSome_replicate_none {α : Type} (k : ℕ) :
    lastSome (List.replicate k (none : Option α)) = none := by
  induction k with
  | zero => rfl
  | succ n ih => simp [List.replicate_succ, lastSome, ih]

/-- The last non-null entry of successful results followed by `null`s is the
    last successful result. -/
theorem lastSome_map_some_append {α : Type} (ys : List α) (k : ℕ) :
    lastSome (ys.map some ++ List.replicate k (none : Option α)) = ys.getLast? := by
  induction ys with
  | nil =>
      simp only [List.map_nil, List.nil_append, lastSome_replicate_none]
      rfl
  | cons y ys' ih =>
      rw [List.map_cons, List.cons_append]
      show (match lastSome (ys'.map some ++ List.replicate k none) with
            | some b => some b
            | none => some y) = (y :: ys').getLast?
      rw [ih]
      cases ys' with
      | nil => rfl
      | cons z zs =>
          rw [List.getLast?_cons_cons]
          cases hcase : (z :: zs).getLast? with
          | none =>
              exfalso
              have := List.getLast?_isSome (l := z :: zs)
              rw [hcase] at this
              simp at this
          | some w => rfl

/-- C1: after `reset(s0)` and registering `s1 … sN` (with `N` bounded by the
    capacity), undoing `N` times and redoing `N` times (excess calls return
    `null` and are no-ops) restores the baseline `sN`; any last non-null redo
    result is `sN`, and for `N ≥ 2` it exists. -/
theorem history_undo_redo_roundtrip {α : Type} (st0 : HistoryState α) (s0 : α) (l : List α)
    (hne : l ≠ []) (hcap : l.length ≤ st0.capacity) :
    (roundTrip st0 s0 l).2.previous = lastD s0 l ∧
    (∀ s, lastSome (roundTrip st0 s0 l).1 = some s → s = lastD s0 l) ∧
    (2 ≤ l.length → lastSome (roundTrip st0 s0 l).1 = some (lastD s0 l)) := by
  obtain ⟨a, m, rfl⟩ : ∃ a m, l = a :: m := by
    cases l with
    | nil => exact absurd rfl hne
    | cons a m => exact ⟨a, m, rfl⟩
  have hm : m.length ≤ (st0.reset s0).capacity := by
    simp only [List.length_cons] at hcap
    exact le_trans (Nat.le_succ m.length) hcap
  have h1 : registerAll (st0.reset s0) (a :: m) =
      { st0 with
        undoStack := pushedSeq a m
        redoStack := []
        previous := lastD a m
        skipNext := false } :=
    registerAll_fresh (st0.reset s0) a m rfl rfl rfl hm
  cases m with
  | nil =>
      have h2 : roundTrip st0 s0 [a] =
          (List.replicate 1 none,
            { st0 with undoStack := [], redoStack := [], previous := a, skipNext := false }) := by
        unfold roundTrip
        rw [show [a].length = 1 from rfl, h1]
        rw [undoTimes_empty _ rfl 1, redoTimes_empty _ rfl 1]
        rfl
      rw [h2]
      refine ⟨rfl, ?_, ?_⟩
      · intro s hs
        have hnone : lastSome (List.replicate 1 (none : Option α)) = none := rfl
        rw [hnone] at hs
        exact Option.noConfusion hs
      · intro h2le
        rw [List.length_singleton] at h2le
        omega
  | cons b m' =>
      have hlen1 : (a :: b :: m').length = (b :: m').length + 1 := rfl
      have hplen : (pushedSeq a (b :: m')).length = (b :: m').length :=
        pushedSeq_length (b :: m') a
      have h2 := undoTimes_drain (pushedSeq a (b :: m'))
        ({ st0 with
           undoStack := pushedSeq a (b :: m')
           redoStack := []
           previous := lastD a (b :: m')
           skipNext := false }) ((a :: b :: m').length) rfl
        (by rw [hplen, hlen1]; exact Nat.le_succ _)
      have hu_ne : (pushedSeq a (b :: m')).isEmpty = false := rfl
      -- the redo stack after the undo phase
      have hr_form : unwind (pushedSeq a (b :: m')) (lastD a (b :: m')) =
          lastD a (b :: m') :: (pushedSeq a (b :: m')).reverse.dropLast := by
        unfold unwind
        rw [hu_ne]
        rfl
      have hr_len : (unwind (pushedSeq a (b :: m')) (lastD a (b :: m'))).length =
          (b :: m').length := by
        rw [hr_form]
        simp only [List.length_cons, List.length_dropLast, List.length_reverse, hplen]
        omega
      have h3 := redoTimes_drain (unwind (pushedSeq a (b :: m')) (lastD a (b :: m')))
        ((undoTimes (a :: b :: m').length
          ({ st0 with
             undoStack := pushedSeq a (b :: m')
             redoStack := []
             previous := lastD a (b :: m')
             skipNext := false })).2) ((a :: b :: m').length)
        (by rw [h2]; rfl) (by rw [hr_len, hlen1]; exact Nat.le_succ _)
      have hout : lastSome (roundTrip st0 s0 (a :: b :: m')).1 = some (lastD a (b :: m')) := by
        unfold roundTrip
        rw [h1, h3]
        show lastSome (List.map some (unwind (pushedSeq a (b :: m')) (lastD a (b :: m'))).reverse ++
          List.replicate ((a :: b :: m').length -
            (unwind (pushedSeq a (b :: m')) (lastD a (b :: m'))).length) none) = _
        rw [lastSome_map_some_append, hr_form, List.reverse_cons, List.getLast?_concat]
      have hprev : (roundTrip st0 s0 (a :: b :: m')).2.previous = lastD a (b :: m') := by
        unfold roundTrip
        rw [h1, h3]
        rfl
      refine ⟨hprev, ?_, fun _ => hout⟩
      intro s hs
      rw [hout] at hs
      exact (Option.some_injective α hs).symm

/-- C1 witness: the round trip at capacity 50 with snapshots `0; 1, 2, 3`. -/
theorem history_undo_redo_roundtrip_witness :
    (roundTrip (initHistory (0 : ℕ) none) 0 [1, 2, 3]).2.previous = 3 ∧
    lastSome (roundTrip (initHistory (0 : ℕ) none) 0 [1, 2, 3]).1 = some 3 := by
  have h := history_undo_redo_roundtrip (initHistory (0 : ℕ) none) 0 [1, 2, 3]
    (by decide) (by decide)
  exact ⟨h.1, h.2.2 (by decide)⟩

/-- Registering any list with the flag down: the undo stack is the last
    `capacity` entries of all baselines pushed so far, and it never exceeds the
    capacity. -/
theorem registerAll_trim {α : Type} :
    ∀ (m : List α) (st : HistoryState α), st.skipNext = false →
      st.undoStack.length ≤ st.capacity →
      (registerAll st m).undoStack =
          sliceLast st.capacity (st.undoStack ++ pushedSeq st.previous m) ∧
        (registerAll st m).undoStack.length ≤ st.capacity ∧
        (registerAll st m).capacity = st.capacity := by
  intro m
  induction m with
  | nil =>
      intro st h hlen
      refine ⟨?_, hlen, rfl⟩
      show st.undoStack = _
      rw [pushedSeq, List.append_nil, sliceLast_of_le _ _ hlen]
  | cons b rest ih =>
      intro st h hlen
      have hstep := register_noskip st b h
      have hfold : registerAll st (b :: rest) =
          registerAll
            { st with
              undoStack := sliceLast st.capacity (st.undoStack ++ [st.previous])
              redoStack := []
              previous := b } rest := by
        show registerAll (st.register b) rest = _
        rw [hstep]
      have h2 := ih
        { st with
          undoStack := sliceLast st.capacity (st.undoStack ++ [st.previous])
          redoStack := []
          previous := b } h (sliceLast_length _ _)
      rw [hfold]
      refine ⟨?_, h2.2.1, h2.2.2⟩
      rw [h2.1]
      show sliceLast st.capacity (sliceLast st.capacity (st.undoStack ++ [st.previous]) ++
        pushedSeq b rest) = _
      rw [sliceLast_absorb, List.append_assoc]
      rfl

/-- C5: after a reset, an arbitrary sequence of `register` calls leaves the
    undo stack with at most `capacity` entries, equal to the most recent
    `capacity` of all pushed baselines (oldest dropped first); repeated undo
    returns exactly those entries, newest first. -/
theorem history_capacity_bound {α : Type} (st0 : HistoryState α) (s0 : α) (l : List α)
    (hc : 1 ≤ st0.capacity) :
    (registerAll (st0.reset s0) l).undoStack.length ≤ st0.capacity ∧
    (registerAll (st0.reset s0) l).undoStack = sliceLast st0.capacity (allPushes l) ∧
    (undoTimes (registerAll (st0.reset s0) l).undoStack.length
        (registerAll (st0.reset s0) l)).1 =
      (registerAll (st0.reset s0) l).undoStack.reverse.map some := by
  have hmain : (registerAll (st0.reset s0) l).undoStack.length ≤ st0.capacity ∧
      (registerAll (st0.reset s0) l).undoStack = sliceLast st0.capacity (allPushes l) := by
    cases l with
    | nil =>
        refine ⟨Nat.zero_le _, ?_⟩
        show ([] : List α) = sliceLast st0.capacity []
        rw [sliceLast_of_le _ _ (Nat.zero_le _)]
    | cons a m =>
        have hstep : (st0.reset s0).register a =
            { st0.reset s0 with skipNext := false, previous := a } :=
          register_skip _ _ rfl
        have h2 := registerAll_trim m
          ({ st0.reset s0 with skipNext := false, previous := a }) rfl (Nat.zero_le _)
        constructor
        · show (registerAll ((st0.reset s0).register a) m).undoStack.length ≤ _
          rw [hstep]
          exact h2.2.1
        · show (registerAll ((st0.reset s0).register a) m).undoStack = _
          rw [hstep, h2.1]
          show sliceLast st0.capacity ([] ++ pushedSeq a m) = _
          rw [List.nil_append]
          rfl
  refine ⟨hmain.1, hmain.2, ?_⟩
  have hdrain := undoTimes_drain (registerAll (st0.reset s0) l).undoStack
    (registerAll (st0.reset s0) l) (registerAll (st0.reset s0) l).undoStack.length rfl
    (le_refl _)
  rw [hdrain]
  rw [Nat.sub_self, List.replicate_zero, List.append_nil]

/-- C5 witness: capacity 3, registering `1 … 5` after `reset 0`; only the three
    most recent pre-change snapshots `2, 3, 4` remain, recoverable newest
    first. -/
theorem history_capacity_bound_witness :
    (registerAll ((initHistory (0 : ℕ) (some 3)).reset 0) [1, 2, 3, 4, 5]).undoStack.length ≤
        (initHistory (0 : ℕ) (some 3)).capacity ∧
    (registerAll ((initHistory (0 : ℕ) (some 3)).reset 0) [1, 2, 3, 4, 5]).undoStack =
        [2, 3, 4] ∧
    (undoTimes
        (registerAll ((initHistory (0 : ℕ) (some 3)).reset 0) [1, 2, 3, 4, 5]).undoStack.length
        (registerAll ((initHistory (0 : ℕ) (some 3)).reset 0) [1, 2, 3, 4, 5])).1 =
      [some 4, some 3, some 2] := by
  have h := history_capacity_bound (initHistory (0 : ℕ) (some 3)) 0 [1, 2, 3, 4, 5] (by decide)
  refine ⟨h.1, ?_, ?_⟩
  · rw [h.2.1]
    decide
  · rw [h.2.2]
    decide

/-- C10: a `register` while the skip-next flag is armed only swallows the
    snapshot into the baseline and clears the flag — it pushes nothing and
    leaves both stacks unchanged; hence after a successful `undo` whose result
    the caller re-registers, `redo` still succeeds and returns the pre-undo
    baseline. -/
theorem register_skipNext_swallow {α : Type} :
    (∀ (st : HistoryState α) (s : α), st.skipNext = true →
      st.register s = { st with skipNext := false, previous := s }) ∧
    (∀ (st st' : HistoryState α) (s : α), st.undo = (some s, st') →
      (st'.register s).undoStack = st'.undoStack ∧
      (st'.register s).redoStack = st'.redoStack ∧
      ((st'.register s).redo).1 = some st.previous) := by
  refine ⟨register_skip, ?_⟩
  intro st st' s h
  unfold HistoryState.undo at h
  cases hL : st.undoStack.getLast? with
  | none =>
      rw [hL] at h
      have hcontra : (none : Option α) = some s := congrArg Prod.fst h
      exact Option.noConfusion hcontra
  | some prev =>
      rw [hL] at h
      have h1 : some prev = some s := congrArg Prod.fst h
      have h2 : st' =
          { st with
            undoStack := st.undoStack.dropLast
            redoStack := st.redoStack ++ [st.previous]
            skipNext := true
            previous := prev } := (congrArg Prod.snd h).symm
      have hreg := register_skip st' s (by rw [h2])
      refine ⟨by rw [hreg], by rw [hreg], ?_⟩
      rw [hreg]
      show ({ st' with skipNext := false, previous := s }).redo.1 = _
      unfold HistoryState.redo
      have hrs : ({ st' with skipNext := false, previous := s }).redoStack =
          st.redoStack ++ [st.previous] := by rw [h2]
      rw [hrs, List.getLast?_concat]

/-- C10 witness: the swallow rule and the undo-register-redo scenario at
    concrete states over `ℕ` snapshots. -/
theorem register_skipNext_swallow_witness :
    HistoryState.register (⟨50, [], [], 7, true⟩ : HistoryState ℕ) 9 = ⟨50, [], [], 9, false⟩ ∧
    (HistoryState.register (⟨50, [], [2], 1, true⟩ : HistoryState ℕ) 1).redoStack = [2] ∧
    ((HistoryState.register (⟨50, [], [2], 1, true⟩ : HistoryState ℕ) 1).redo).1 = some 2 := by
  have h1 := register_skipNext_swallow.1 (⟨50, [], [], 7, true⟩ : HistoryState ℕ) 9 rfl
  have h2 := register_skipNext_swallow.2 (⟨50, [1], [], 2, false⟩ : HistoryState ℕ)
    (⟨50, [], [2], 1, true⟩ : HistoryState ℕ) 1 (by decide)
  exact ⟨h1, h2.2.1, h2.2.2⟩

/-! ### Snap-engine lemmas -/

/-- The exclusion guard commutes with filtering: scanning with `snapStep` is
    scanning the unexcluded candidates with the plain minimum update. -/
theorem snapFold_filter (x y : ℚ) (excl : Option Point) :
    ∀ (L : List Point) (st : Option Point × ℚ),
      L.foldl (snapStep x y excl) st =
        (L.filter (fun c => !excludedPt excl c)).foldl (snapUpdate x y) st := by
  intro L
  induction L with
  | nil => intro st; rfl
  | cons c L ih =>
      intro st
      rw [List.foldl_cons, List.filter_cons]
      cases hex : excludedPt excl c with
      | true =>
          have hstep : snapStep x y excl st c = st := by
            unfold snapStep
            rw [hex]
            rfl
          rw [hstep]
          simp only [Bool.not_true, Bool.false_eq_true, if_false]
          exact ih st
      | false =>
          have hstep : snapStep x y excl st c = snapUpdate x y st c := by
            unfold snapStep
            rw [hex]
            rfl
          rw [hstep]
          simp only [Bool.not_false, if_true, List.foldl_cons]
          exact ih (snapUpdate x y st c)

/-- Invariant of the scan: a `none` result means every candidate is at least
    the snap radius away; a `some p` result means `p` is strictly within the
    radius, strictly closer than every earlier candidate and at least as close
    as every later one (first-seen-wins on ties). -/
theorem snapFold_spec (x y : ℚ) : ∀ (L : List Point),
    (∀ m, L.foldl (snapUpdate x y) ((none : Option Point), SNAP_RADIUS * SNAP_RADIUS) =
        (none, m) →
      m = SNAP_RADIUS * SNAP_RADIUS ∧
        ∀ c ∈ L, SNAP_RADIUS * SNAP_RADIUS ≤ distSq c.x c.y x y) ∧
    (∀ p m, L.foldl (snapUpdate x y) ((none : Option Point), SNAP_RADIUS * SNAP_RADIUS) =
        (some p, m) →
      m = distSq p.x p.y x y ∧
      distSq p.x p.y x y < SNAP_RADIUS * SNAP_RADIUS ∧
      ∃ pre post, L = pre ++ p :: post ∧
        (∀ c ∈ pre, distSq p.x p.y x y < distSq c.x c.y x y) ∧
        (∀ c ∈ post, distSq p.x p.y x y ≤ distSq c.x c.y x y)) := by
  intro L
  induction L using List.reverseRecOn with
  | nil =>
      constructor
      · intro m hm
        have h2 : SNAP_RADIUS * SNAP_RADIUS = m := congrArg Prod.snd hm
        exact ⟨h2.symm, by intro c hc; cases hc⟩
      · intro p m hm
        exact Option.noConfusion (congrArg Prod.fst hm)
  | append_singleton L a ih =>
      rw [List.foldl_append]
      simp only [List.foldl_cons, List.foldl_nil]
      rcases hprev : L.foldl (snapUpdate x y) ((none : Option Point), SNAP_RADIUS * SNAP_RADIUS)
        with ⟨acc, m0⟩
      cases acc with
      | none =>
          obtain ⟨hm0, hall⟩ := ih.1 m0 hprev
          subst hm0
          constructor
          · intro m hm
            unfold snapUpdate at hm
            split_ifs at hm with hd
            · exact Option.noConfusion (congrArg Prod.fst hm)
            · have h2 : SNAP_RADIUS * SNAP_RADIUS = m := congrArg Prod.snd hm
              refine ⟨h2.symm, ?_⟩
              intro c hc
              rcases List.mem_append.mp hc with hc | hc
              · exact hall c hc
              · rw [List.mem_singleton.mp hc]
                exact le_of_not_lt hd
          · intro p m hm
            unfold snapUpdate at hm
            split_ifs at hm with hd
            · have hp : some a = some p := congrArg Prod.fst hm
              have hpa : a = p := Option.some_injective _ hp
              subst hpa
              have hmval : distSq a.x a.y x y = m := congrArg Prod.snd hm
              refine ⟨hmval.symm, hd, L, [], rfl, ?_, ?_⟩
              · intro c hc
                exact lt_of_lt_of_le hd (hall c hc)
              · intro c hc
                cases hc
            · exact Option.noConfusion (congrArg Prod.fst hm)
      | some q =>
          obtain ⟨hm0, hdq, pre, post, hsplit, hpre, hpost⟩ := ih.2 q m0 hprev
          subst hm0
          constructor
          · intro m hm
            unfold snapUpdate at hm
            split_ifs at hm with hd
            · exact Option.noConfusion (congrArg Prod.fst hm)
            · exact Option.noConfusion (congrArg Prod.fst hm)
          · intro p m hm
            unfold snapUpdate at hm
            split_ifs at hm with hd
            · -- the new candidate strictly beats the running minimum
              have hp : some a = some p := congrArg Prod.fst hm
              have hpa : a = p := Option.some_injective _ hp
              subst hpa
              have hmval : distSq a.x a.y x y = m := congrArg Prod.snd hm
              refine ⟨hmval.symm, lt_trans hd hdq, L, [], rfl, ?_, ?_⟩
              · intro c hc
                rw [hsplit] at hc
                rcases List.mem_append.mp hc with hc | hc
                · exact lt_of_lt_of_le hd (le_of_lt (hpre c hc))
                · rcases List.mem_cons.mp hc with rfl | hc
                  · exact hd
                  · exact lt_of_lt_of_le hd (hpost c hc)
              · intro c hc
                cases hc
            · -- tie or farther: the earlier minimum is kept (first-seen-wins)
              have hp : some q = some p := congrArg Prod.fst hm
              have hpq : q = p := Option.some_injective _ hp
              subst hpq
              have hmval : distSq q.x q.y x y = m := congrArg Prod.snd hm
              refine ⟨hmval.symm, hdq, pre, post ++ [a], ?_, hpre, ?_⟩
              · rw [hsplit, List.append_assoc]
                rfl
              · intro c hc
                rcases List.mem_append.mp hc with hc | hc
                · exact hpost c hc
                · rw [List.mem_singleton.mp hc]
                  exact le_of_not_lt hd

/-- C2: `findSnapPoint` returns `null` exactly when every (unexcluded)
    candidate is at least `SNAP_RADIUS` away, and otherwise returns the
    candidate with the minimal distance, strictly within the radius, ties
    broken first-seen-wins in candidate order (distances are compared via
    their squares, which is equivalent).  In particular, with a single anchor
    at `(100, 100)`, querying `(100, 117)` (distance 17) snaps to the anchor
    and querying `(100, 119)` (distance 19) returns `null`. -/
theorem findSnapPoint_nearest :
    (∀ (els : List PlayElement) (locked : Bool) (x y : ℚ) (excl : Option Point),
      (findSnapPoint els locked x y excl = none →
        ∀ c ∈ snapCandidates locked els, excludedPt excl c = false →
          SNAP_RADIUS * SNAP_RADIUS ≤ distSq c.x c.y x y) ∧
      (∀ p, findSnapPoint els locked x y excl = some p →
        p ∈ snapCandidates locked els ∧
        distSq p.x p.y x y < SNAP_RADIUS * SNAP_RADIUS ∧
        ∃ pre post,
          (snapCandidates locked els).filter (fun c => !excludedPt excl c) =
              pre ++ p :: post ∧
          (∀ c ∈ pre, distSq p.x p.y x y < distSq c.x c.y x y) ∧
          (∀ c ∈ post, distSq p.x p.y x y ≤ distSq c.x c.y x y)) ∧
      ((∀ c ∈ snapCandidates locked els, excludedPt excl c = false →
          SNAP_RADIUS * SNAP_RADIUS ≤ distSq c.x c.y x y) →
        findSnapPoint els locked x y excl = none)) ∧
    findSnapPoint demoSnapElements false 100 117 none = some ⟨100, 100⟩ ∧
    findSnapPoint demoSnapElements false 100 119 none = none := by
  refine ⟨?_, ?_, ?_⟩
  · intro els locked x y excl
    have hfold := snapFold_filter x y excl (snapCandidates locked els)
      ((none : Option Point), SNAP_RADIUS * SNAP_RADIUS)
    refine ⟨?_, ?_, ?_⟩
    · intro hnone c hc hex
      unfold findSnapPoint at hnone
      rw [hfold] at hnone
      rcases hres : ((snapCandidates locked els).filter
          (fun c => !excludedPt excl c)).foldl (snapUpdate x y)
          ((none : Option Point), SNAP_RADIUS * SNAP_RADIUS) with ⟨acc, m⟩
      rw [hres] at hnone
      cases acc with
      | some p => exact Option.noConfusion hnone
      | none =>
          obtain ⟨-, hall⟩ := (snapFold_spec x y _).1 m hres
          refine hall c ?_
          rw [List.mem_filter]
          exact ⟨hc, by rw [hex]; rfl⟩
    · intro p hp
      unfold findSnapPoint at hp
      rw [hfold] at hp
      rcases hres : ((snapCandidates locked els).filter
          (fun c => !excludedPt excl c)).foldl (snapUpdate x y)
          ((none : Option Point), SNAP_RADIUS * SNAP_RADIUS) with ⟨acc, m⟩
      rw [hres] at hp
      cases acc with
      | none => exact Option.noConfusion hp
      | some q =>
          have hq : q = p := Option.some_injective _ hp
          subst hq
          obtain ⟨-, hd, pre, post, hsplit, hpre, hpost⟩ := (snapFold_spec x y _).2 q m hres
          refine ⟨?_, hd, pre, post, hsplit, hpre, hpost⟩
          apply List.mem_of_mem_filter (p := fun c => !excludedPt excl c)
          rw [hsplit]
          exact List.mem_append.mpr (Or.inr (List.mem_cons_self _ _))
    · intro hall
      rcases hres2 : findSnapPoint els locked x y excl with _ | p
      · rfl
      · exfalso
        unfold findSnapPoint at hres2
        rw [hfold] at hres2
        rcases hres : ((snapCandidates locked els).filter
            (fun c => !excludedPt excl c)).foldl (snapUpdate x y)
            ((none : Option Point), SNAP_RADIUS * SNAP_RADIUS) with ⟨acc, m⟩
        rw [hres] at hres2
        cases acc with
        | none => exact Option.noConfusion hres2
        | some q =>
            obtain ⟨-, hd, pre, post, hsplit, -, -⟩ := (snapFold_spec x y _).2 q m hres
            have hmem : q ∈ (snapCandidates locked els).filter
                (fun c => !excludedPt excl c) := by
              rw [hsplit]
              exact List.mem_append.mpr (Or.inr (List.mem_cons_self _ _))
            obtain ⟨hq1, hq2⟩ := List.mem_filter.mp hmem
            have hq3 : excludedPt excl q = false := by
              revert hq2
              cases excludedPt excl q <;> simp
            exact absurd hd (not_lt.mpr (hall q hq1 hq3))
  · have hcand : snapCandidates false demoSnapElements = [⟨100, 100⟩, ⟨300, 300⟩] := rfl
    unfold findSnapPoint
    rw [hcand]
    norm_num [List.foldl_cons, List.foldl_nil, snapStep, snapUpdate, excludedPt, distSq,
      SNAP_RADIUS]
  · have hcand : snapCandidates false demoSnapElements = [⟨100, 100⟩, ⟨300, 300⟩] := rfl
    unfold findSnapPoint
    rw [hcand]
    norm_num [List.foldl_cons, List.foldl_nil, snapStep, snapUpdate, excludedPt, distSq,
      SNAP_RADIUS]

/-- C2 witness: the characterisation applied at the demo anchor query
    `(100, 117)`. -/
theorem findSnapPoint_nearest_witness :
    (⟨100, 100⟩ : Point) ∈ snapCandidates false demoSnapElements ∧
    distSq (100 : ℚ) 100 100 117 < SNAP_RADIUS * SNAP_RADIUS := by
  have h := (findSnapPoint_nearest.1 demoSnapElements false 100 117 none).2.1
    ⟨100, 100⟩ findSnapPoint_nearest.2.1
  exact ⟨h.1, h.2.1⟩

/-- C3: membership in the snap-candidate collection is exactly: the centre of
    some Player element when players are locked, or an endpoint of some Arrow,
    Line or PerpendicularLine element; Ball, Rect and Zone elements contribute
    nothing, and Player centres are never candidates when players are
    unlocked. -/
theorem snapCandidates_exact (locked : Bool) (els : List PlayElement) (p : Point) :
    p ∈ snapCandidates locked els ↔
      ((locked = true ∧ ∃ i c l r, PlayElement.player i p.x p.y c l r ∈ els) ∨
        (∃ i x2 y2 c s t, PlayElement.arrow i p.x p.y x2 y2 c s t ∈ els) ∨
        (∃ i x1 y1 c s t, PlayElement.arrow i x1 y1 p.x p.y c s t ∈ els) ∨
        (∃ i x2 y2 c s t, PlayElement.line i p.x p.y x2 y2 c s t ∈ els) ∨
        (∃ i x1 y1 c s t, PlayElement.line i x1 y1 p.x p.y c s t ∈ els) ∨
        (∃ i x2 y2 c s t k, PlayElement.perpLine i p.x p.y x2 y2 c s t k ∈ els) ∨
        (∃ i x1 y1 c s t k, PlayElement.perpLine i x1 y1 p.x p.y c s t k ∈ els)) := by
  unfold snapCandidates
  rw [List.mem_flatMap]
  constructor
  · rintro ⟨e, he, hp⟩
    cases e with
    | player i x y c l r =>
        unfold elementSnapCandidates at hp
        cases hlock : locked with
        | false =>
            rw [hlock] at hp
            simp at hp
        | true =>
            rw [hlock] at hp
            simp only [if_true] at hp
            rcases List.mem_singleton.mp hp with rfl
            exact Or.inl ⟨rfl, i, c, l, r, he⟩
    | ball i x y c =>
        unfold elementSnapCandidates at hp
        simp at hp
    | arrow i x1 y1 x2 y2 c s t =>
        unfold elementSnapCandidates at hp
        rcases List.mem_cons.mp hp with rfl | hp
        · exact Or.inr (Or.inl ⟨i, x2, y2, c, s, t, he⟩)
        · rcases List.mem_singleton.mp hp with rfl
          exact Or.inr (Or.inr (Or.inl ⟨i, x1, y1, c, s, t, he⟩))
    | line i x1 y1 x2 y2 c s t =>
        unfold elementSnapCandidates at hp
        rcases List.mem_cons.mp hp with rfl | hp
        · exact Or.inr (Or.inr (Or.inr (Or.inl ⟨i, x2, y2, c, s, t, he⟩)))
        · rcases List.mem_singleton.mp hp with rfl
          exact Or.inr (Or.inr (Or.inr (Or.inr (Or.inl ⟨i, x1, y1, c, s, t, he⟩))))
    | perpLine i x1 y1 x2 y2 c s t k =>
        unfold elementSnapCandidates at hp
        rcases List.mem_cons.mp hp with rfl | hp
        · exact Or.inr (Or.inr (Or.inr (Or.inr (Or.inr (Or.inl ⟨i, x2, y2, c, s, t, k, he⟩)))))
        · rcases List.mem_singleton.mp hp with rfl
          exact Or.inr (Or.inr (Or.inr (Or.inr (Or.inr (Or.inr ⟨i, x1, y1, c, s, t, k, he⟩)))))
    | rect i x y w h c =>
        unfold elementSnapCandidates at hp
        simp at hp
    | zone i x y w h c =>
        unfold elementSnapCandidates at hp
        simp at hp
  · rintro (⟨hlock, i, c, l, r, he⟩ | ⟨i, x2, y2, c, s, t, he⟩ | ⟨i, x1, y1, c, s, t, he⟩ |
      ⟨i, x2, y2, c, s, t, he⟩ | ⟨i, x1, y1, c, s, t, he⟩ |
      ⟨i, x2, y2, c, s, t, k, he⟩ | ⟨i, x1, y1, c, s, t, k, he⟩)
    · refine ⟨_, he, ?_⟩
      unfold elementSnapCandidates
      rw [hlock]
      simp
    · exact ⟨_, he, by unfold elementSnapCandidates; exact List.mem_cons_self _ _⟩
    · exact ⟨_, he, by unfold elementSnapCandidates; simp⟩
    · exact ⟨_, he, by unfold elementSnapCandidates; exact List.mem_cons_self _ _⟩
    · exact ⟨_, he, by unfold elementSnapCandidates; simp⟩
    · exact ⟨_, he, by unfold elementSnapCandidates; exact List.mem_cons_self _ _⟩
    · exact ⟨_, he, by unfold elementSnapCandidates; simp⟩

/-- C3 witness: the characterisation at a locked-player collection — the
    player centre is a candidate when locked, and is not one when unlocked. -/
theorem snapCandidates_exact_witness :
    (⟨40, 60⟩ : Point) ∈
        snapCandidates true [PlayElement.player "p7" 40 60 "#111827" "" 25] ∧
    ¬ (⟨40, 60⟩ : Point) ∈
        snapCandidates false [PlayElement.player "p7" 40 60 "#111827" "" 25] := by
  constructor
  · exact (snapCandidates_exact true [PlayElement.player "p7" 40 60 "#111827" "" 25]
      ⟨40, 60⟩).mpr (Or.inl ⟨rfl, "p7", "#111827", "", 25, List.mem_cons_self _ _⟩)
  · intro hmem
    have h := (snapCandidates_exact false [PlayElement.player "p7" 40 60 "#111827" "" 25]
      ⟨40, 60⟩).mp hmem
    rcases h with ⟨hlock, -⟩ | ⟨i, x2, y2, c, s, t, he⟩ | ⟨i, x1, y1, c, s, t, he⟩ |
      ⟨i, x2, y2, c, s, t, he⟩ | ⟨i, x1, y1, c, s, t, he⟩ |
      ⟨i, x2, y2, c, s, t, k, he⟩ | ⟨i, x1, y1, c, s, t, k, he⟩
    · exact Bool.noConfusion hlock
    all_goals
      rcases List.mem_singleton.mp he with he2
      exact PlayElement.noConfusion he2

/-- Appending an element yields a different list. -/
theorem append_singleton_ne {α : Type} (l : List α) (a : α) : l ++ [a] ≠ l := by
  intro h
  have := congrArg List.length h
  simp at this

/-- C4: a draft commit on pointer-up is discarded exactly when the draft is
    under the size thresholds (line-like under 8 px, rect/zone with a side of
    absolute size under 6 px); otherwise exactly one new element carrying the
    freshly generated identifier is appended to the end of the element
    collection, line-like drafts after the final endpoint re-snap.  The
    concrete conjuncts check the claim's four threshold examples and the
    re-snap of a committed line's endpoint onto a nearby arrow endpoint. -/
theorem commitDraft_thresholds :
    (∀ (uidv : String) (locked : Bool) (p : Play) (d : DraftState),
      (commitDraft uidv locked p d = p ↔ draftRejected d) ∧
      (¬ draftRejected d → ∃ e, PlayElement.elementId e = uidv ∧
        (commitDraft uidv locked p d).elements = p.elements ++ [e])) ∧
    commitDraft "u1" false demoPlay (.line 0 0 0 7 "#111827" .solid 3) = demoPlay ∧
    (commitDraft "u1" false demoPlay (.line 0 0 0 9 "#111827" .solid 3)).elements =
      [.line "u1" 0 0 0 9 "#111827" .solid 3] ∧
    commitDraft "u1" false demoPlay (.rect 0 0 5 20 "#111827") = demoPlay ∧
    (commitDraft "u1" false demoPlay (.rect 0 0 6 6 "#111827")).elements =
      [.rect "u1" 0 0 6 6 "#111827"] ∧
    (commitDraft "u1" false demoPlayWithArrow (.line 0 0 45 50 "#111827" .solid 3)).elements =
      demoPlayWithArrow.elements ++ [.line "u1" 0 0 50 50 "#111827" .solid 3] := by
  refine ⟨?_, ?_, ?_, ?_, ?_, ?_⟩
  · intro uidv locked p d
    cases d with
    | arrow x1 y1 x2 y2 c s t =>
        simp only [commitDraft, draftRejected]
        split_ifs with hd
        · exact ⟨iff_of_true rfl hd, fun hn => absurd hd hn⟩
        · refine ⟨iff_of_false ?_ hd, fun _ =>
            ⟨PlayElement.arrow uidv x1 y1 (resnapEnd p.elements locked x1 y1 x2 y2).1
              (resnapEnd p.elements locked x1 y1 x2 y2).2 c s t, rfl, rfl⟩⟩
          intro heq
          exact append_singleton_ne p.elements _ (congrArg Play.elements heq)
    | line x1 y1 x2 y2 c s t =>
        simp only [commitDraft, draftRejected]
        split_ifs with hd
        · exact ⟨iff_of_true rfl hd, fun hn => absurd hd hn⟩
        · refine ⟨iff_of_false ?_ hd, fun _ =>
            ⟨PlayElement.line uidv x1 y1 (resnapEnd p.elements locked x1 y1 x2 y2).1
              (resnapEnd p.elements locked x1 y1 x2 y2).2 c s t, rfl, rfl⟩⟩
          intro heq
          exact append_singleton_ne p.elements _ (congrArg Play.elements heq)
    | perpLine x1 y1 x2 y2 c s t k =>
        simp only [commitDraft, draftRejected]
        split_ifs with hd
        · exact ⟨iff_of_true rfl hd, fun hn => absurd hd hn⟩
        · refine ⟨iff_of_false ?_ hd, fun _ =>
            ⟨PlayElement.perpLine uidv x1 y1 (resnapEnd p.elements locked x1 y1 x2 y2).1
              (resnapEnd p.elements locked x1 y1 x2 y2).2 c s t k, rfl, rfl⟩⟩
          intro heq
          exact append_singleton_ne p.elements _ (congrArg Play.elements heq)
    | rect x y w h c =>
        simp only [commitDraft, draftRejected]
        split_ifs with hd
        · exact ⟨iff_of_true rfl hd, fun hn => absurd hd hn⟩
        · refine ⟨iff_of_false ?_ hd, fun _ =>
            ⟨PlayElement.rect uidv x y w h c, rfl, rfl⟩⟩
          intro heq
          exact append_singleton_ne p.elements _ (congrArg Play.elements heq)
    | zone x y w h c =>
        simp only [commitDraft, draftRejected]
        split_ifs with hd
        · exact ⟨iff_of_true rfl hd, fun hn => absurd hd hn⟩
        · refine ⟨iff_of_false ?_ hd, fun _ =>
            ⟨PlayElement.zone uidv x y w h c, rfl, rfl⟩⟩
          intro heq
          exact append_singleton_ne p.elements _ (congrArg Play.elements heq)
  · norm_num [commitDraft, distSq]
  · norm_num [commitDraft, distSq, resnapEnd, findSnapPoint, snapCandidates, demoPlay,
      addElement]
  · norm_num [commitDraft, distSq]
  · norm_num [commitDraft, addElement, demoPlay]
  · have hsnap : resnapEnd demoPlayWithArrow.elements false 0 0 45 50 = (50, 50) := by
      have hcand : snapCandidates false demoPlayWithArrow.elements =
          [⟨50, 50⟩, ⟨200, 200⟩] := rfl
      unfold resnapEnd findSnapPoint
      rw [hcand]
      norm_num [List.foldl_cons, List.foldl_nil, snapStep, snapUpdate, excludedPt, distSq,
        SNAP_RADIUS]
    norm_num [commitDraft, distSq, hsnap, addElement]

/-- C4 witness: the commit characterisation applied to the accepted line from
    `(0, 0)` to `(0, 9)` on the empty demo play. -/
theorem commitDraft_thresholds_witness :
    ∃ e, PlayElement.elementId e = "u1" ∧
      (commitDraft "u1" false demoPlay
          (.line 0 0 0 9 "#111827" .solid 3)).elements =
        demoPlay.elements ++ [e] :=
  (commitDraft_thresholds.1 "u1" false demoPlay
    (.line 0 0 0 9 "#111827" .solid 3)).2 (by norm_num [draftRejected, distSq])

/-- The created element carries exactly the uid passed to `addElement`. -/
theorem elementId_withId (b : ElementBody) (u : String) :
    (b.withId u).elementId = u := by
  cases b <;> rfl

/-- C8 counterexample: `generateUid` is `Math.random().toString(36).slice(2, 9)`
    and nothing checks the draws for distinctness, so when the random source
    repeats a value (modelled by the constant uid stream), two creation
    commits on an empty play yield two elements with the same identifier —
    the claimed uniqueness invariant fails on this reachable state. -/
theorem element_ids_duplicate_counterexample :
    (addAll (fun _ => "z0") 0 demoPlay
        [ElementBody.ball 0 0 "#a16207", ElementBody.ball 10 10 "#a16207"]).elements.map
      PlayElement.elementId = ["z0", "z0"] ∧
    ¬ ((addAll (fun _ => "z0") 0 demoPlay
        [ElementBody.ball 0 0 "#a16207", ElementBody.ball 10 10 "#a16207"]).elements.map
      PlayElement.elementId).Pairwise (fun a b => a ≠ b) := by
  constructor
  · rfl
  · intro h
    have hmap : (addAll (fun _ => "z0") 0 demoPlay
        [ElementBody.ball 0 0 "#a16207", ElementBody.ball 10 10 "#a16207"]).elements.map
      PlayElement.elementId = ["z0", "z0"] := rfl
    rw [hmap] at h
    exact (List.pairwise_cons.mp h).1 "z0" (List.mem_singleton.mpr rfl) rfl

/-- C8 (amended): each creation commit assigns the element the uid drawn at
    that commit and later commits never alter earlier elements' identifiers
    (ids are stable for the element's lifetime); the identifiers of a play
    built from an empty one are pairwise distinct exactly when the consumed
    uid draws are pairwise distinct — which the source does not enforce. -/
theorem element_ids_assignment :
    (∀ (uids : ℕ → String) (k : ℕ) (p0 : Play) (bodies : List ElementBody),
      (addAll uids k p0 bodies).elements.map PlayElement.elementId =
        p0.elements.map PlayElement.elementId ++ (List.range' k bodies.length).map uids) ∧
    (∀ (uids : ℕ → String) (k : ℕ) (p0 : Play) (bodies : List ElementBody),
      p0.elements = [] →
      ((List.range' k bodies.length).map uids).Pairwise (fun a b => a ≠ b) →
      ((addAll uids k p0 bodies).elements.map PlayElement.elementId).Pairwise
        (fun a b => a ≠ b)) := by
  have hmain : ∀ (uids : ℕ → String) (bodies : List ElementBody) (k : ℕ) (p0 : Play),
      (addAll uids k p0 bodies).elements.map PlayElement.elementId =
        p0.elements.map PlayElement.elementId ++ (List.range' k bodies.length).map uids := by
    intro uids bodies
    induction bodies with
    | nil =>
        intro k p0
        simp [addAll, List.range']
    | cons b rest ih =>
        intro k p0
        show (addAll uids (k + 1) (addElement (uids k) p0 b.withId) rest).elements.map
          PlayElement.elementId = _
        rw [ih]
        show (p0.elements ++ [b.withId (uids k)]).map PlayElement.elementId ++ _ = _
        rw [List.map_append, List.length_cons, List.range'_succ]
        simp [elementId_withId]
  refine ⟨fun uids k p0 bodies => hmain uids bodies k p0, ?_⟩
  intro uids k p0 bodies hempty hdist
  rw [hmain uids bodies k p0, hempty]
  simpa using hdist

/-- C8 witness: with pairwise-distinct uid draws the two created elements get
    distinct identifiers. -/
theorem element_ids_assignment_witness :
    ((addAll (fun i => String.mk (List.replicate i 'a')) 0 demoPlay
        [ElementBody.ball 0 0 "#a16207", ElementBody.ball 10 10 "#a16207"]).elements.map
      PlayElement.elementId).Pairwise (fun a b => a ≠ b) :=
  element_ids_assignment.2 (fun i => String.mk (List.replicate i 'a')) 0 demoPlay
    [ElementBody.ball 0 0 "#a16207", ElementBody.ball 10 10 "#a16207"] rfl (by decide)

end PD
